import Mathlib

/-!
Verification development for the youtube-live-manager stream orchestrator.

The Rust source under src/src-tauri/src is shallowly embedded below:

* `stream/types.rs`   : status / schedule / stream record types.
* `db/database.rs`    : the SQLite store, modelled as a list of `Stream`
  records; an UPDATE by id maps the field update over every matching record.
* `stream/process.rs` : `FFmpegProcess` — its `stop` sequence is embedded as
  the trace of kill/wait actions it performs, and a running handle is
  abstracted by a `Proc` record holding the latest liveness-probe result
  and the elapsed-seconds counter.
* `stream/scheduler.rs` : the cancellable timer task and
  `calculate_seconds_until`.  The timer task runs on an idealized
  millisecond clock: sleeping advances the clock by exactly the requested
  slice, and the cancellation flag set at time `c` is visible to every
  check performed at a time `≥ c`.
* `stream/manager.rs` : `StreamManager` — its state is `MState`
  (persisted records, process table, scheduler table) and each operation
  is a function on `MState`.  Outcomes of the external world that the code
  consults (spawn success, the liveness re-probe after the 2-second grace
  window, the result of `calculate_seconds_until` at the time of the
  call) are passed in as a `StartEnv` record.
-/

namespace YLM

/-! ### types.rs -/

inductive StreamStatus where
  | idle
  | live
  | scheduled
  | completed
  | error
  | stopping
deriving DecidableEq, Repr

inductive ScheduleType where
  | manual
  | duration
  | absolute
deriving DecidableEq, Repr

structure DurationConfig where
  hours : Nat
  minutes : Nat
  seconds : Nat
deriving DecidableEq, Repr

def DurationConfig.to_seconds (d : DurationConfig) : Nat :=
  d.hours * 3600 + d.minutes * 60 + d.seconds

structure AbsoluteConfig where
  datetime : String
  timezone : String
deriving DecidableEq, Repr

structure ScheduleConfig where
  schedule_type : ScheduleType
  duration : Option DurationConfig
  absolute : Option AbsoluteConfig
deriving DecidableEq, Repr

/-- One persisted stream record (struct `Stream` in types.rs).  Timestamps
are modelled as natural numbers. -/
structure Stream where
  id : String
  name : String
  youtube_key : String
  video_path : String
  status : StreamStatus
  schedule : ScheduleConfig
  started_at : Option Nat
  stopped_at : Option Nat
  created_at : Nat
  elapsed_seconds : Option Nat
  last_elapsed_seconds : Option Nat
deriving DecidableEq, Repr

structure StreamInput where
  name : String
  youtube_key : String
  video_path : String
  schedule : ScheduleConfig
  created_at : Nat
  start_immediately : Bool
deriving DecidableEq, Repr

/-! ### db/database.rs

The streams table is a list of records.  `UPDATE streams SET f = v WHERE
id = ?` maps the field update over every record whose id matches (and is a
no-op when no record matches); `SELECT ... WHERE id = ?` is `List.find?`. -/

abbrev Db := List Stream

def get_stream (db : Db) (id : String) : Option Stream :=
  db.find? (fun s => decide (s.id = id))

def insert_stream (db : Db) (s : Stream) : Db :=
  db ++ [s]

def update_stream_status (db : Db) (id : String) (st : StreamStatus) : Db :=
  db.map (fun s => if s.id = id then { s with status := st } else s)

def update_stream_started_at (db : Db) (id : String) (now : Nat) : Db :=
  db.map (fun s => if s.id = id then { s with started_at := some now } else s)

def update_stream_stopped_at (db : Db) (id : String) (now : Nat) : Db :=
  db.map (fun s => if s.id = id then { s with stopped_at := some now } else s)

def update_stream_last_elapsed (db : Db) (id : String) (secs : Nat) : Db :=
  db.map (fun s => if s.id = id then { s with last_elapsed_seconds := some secs } else s)

def delete_stream (db : Db) (id : String) : Db :=
  db.filter (fun s => decide (s.id ≠ id))

/-! ### process.rs -/

inductive ProcessError where
  | spawn (msg : String)
  | exit (msg : String)
  | video_not_found (path : String)
deriving DecidableEq, Repr

namespace FFmpegProcess

/-- One observable action of `FFmpegProcess::stop` on the child process.
`kill` is `tokio::process::Child::kill` / `start_kill`, which forces the
child to exit (SIGKILL on Unix) — it is a forced termination, not a
graceful termination request.  `wait_timeout n` is a wait for exit bounded
by `n` seconds (`tokio::time::timeout`), `wait` an unbounded wait. -/
inductive FFAction where
  | kill
  | wait_timeout (secs : Nat)
  | wait
deriving DecidableEq, Repr

/-- Outcome of the 3-second bounded wait inside `stop`: the child exited
within the bound, the wait returned an I/O error, or the bound elapsed. -/
inductive WaitOutcome where
  | exited
  | wait_err
  | timed_out
deriving DecidableEq, Repr

/-- The sequence of actions `FFmpegProcess::stop` performs, from
process.rs lines 264-299: it first kills the child, then waits up to 3
seconds for exit; only when that wait times out does it kill again and
wait without a bound. -/
def stop_trace (o : WaitOutcome) : List FFAction :=
  [FFAction.kill, FFAction.wait_timeout 3] ++
    (match o with
     | WaitOutcome.timed_out => [FFAction.kill, FFAction.wait]
     | _ => [])

/-- `FFmpegProcess::stop` returns `Ok(())` on every path. -/
def stop_result (_o : WaitOutcome) : Except ProcessError Unit :=
  Except.ok ()

end FFmpegProcess

/-- Abstraction of a live `FFmpegProcess` handle as the manager sees it:
`running` is the latest result of the non-blocking liveness probe
`is_running` (`child.try_wait()`), `elapsed` the current value of
`elapsed_seconds()`. -/
structure Proc where
  running : Bool
  elapsed : Nat
deriving DecidableEq, Repr

/-! ### scheduler.rs -/

namespace Scheduler

/-- The cancellation-poll slice of the timer task: 100 milliseconds. -/
def poll_slice_ms : Nat := 100

/-- Whether the cancellation flag, set at time `cancel_at` (if ever), is
visible to a check performed at time `t`. -/
def cancel_flag (cancel_at : Option Nat) (t : Nat) : Bool :=
  match cancel_at with
  | some c => decide (c ≤ t)
  | none => false

/-- The timer task spawned by `Scheduler::new`, on an idealized
millisecond clock.  `target` is the absolute fire time, `now` the current
time.  While `now < target` the task checks the cancellation flag and
sleeps `min (target - now) 100` ms; once `now ≥ target` it checks the
flag one final time and, if it is still clear, fires the callback
(returning the fire time); a visible cancellation makes it return without
firing (`none`). -/
def task (target : Nat) (cancel_at : Option Nat) (now : Nat) : Option Nat :=
  if h : now < target then
    if cancel_flag cancel_at now then none
    else task target cancel_at (now + min (target - now) poll_slice_ms)
  else
    if cancel_flag cancel_at now then none
    else some now
termination_by target - now
decreasing_by
  have hm : 0 < min (target - now) poll_slice_ms := by
    have h1 : 0 < target - now := by omega
    have h2 : 0 < poll_slice_ms := by decide
    exact lt_min h1 h2
  omega

/-- A run of the timer created with `Scheduler::new` for a delay of
`delay_ms` milliseconds, with the cancellation flag set at time
`cancel_at` (if ever): the time at which the callback fires, or `none`
when it never runs. -/
def run (delay_ms : Nat) (cancel_at : Option Nat) : Option Nat :=
  task delay_ms cancel_at 0

/-- `Scheduler::calculate_seconds_until`, parameterized by the resolved
absolute target instant.  `target_utc` is the result of parsing the
timezone and local date-time and resolving them with
`from_local_datetime(..).single()` — `none` when any of those steps
fails — expressed in nanoseconds since the epoch, and `now_utc` is
`Utc::now()` in the same unit.  When the target is strictly in the future
the code returns the truncated whole-second difference cast to u64 (the
guard makes the value non-negative, so the cast preserves it, modelled by
`Int.toNat`); otherwise it returns 0. -/
def calculate_seconds_until (target_utc : Option Int) (now_utc : Int) : Option Nat :=
  match target_utc with
  | none => none
  | some target =>
    if now_utc < target then some (((target - now_utc) / 1000000000).toNat)
    else some 0

end Scheduler

/-! ### manager.rs -/

inductive ManagerError where
  | database (msg : String)
  | notFound (id : String)
  | alreadyRunning (id : String)
  | duplicateKey (key : String)
  | ffmpeg (msg : String)
  | io (msg : String)
deriving DecidableEq, Repr

/-- The process table `processes : HashMap<String, FFmpegProcess>`,
as an association list. -/
abbrev ProcTable := List (String × Proc)

def lookupProc (t : ProcTable) (id : String) : Option Proc :=
  (t.find? (fun q => decide (q.1 = id))).map (fun q => q.2)

def removeProc (t : ProcTable) (id : String) : ProcTable :=
  t.filter (fun q => decide (q.1 ≠ id))

/-- `HashMap::insert` replaces any existing entry for the key. -/
def insertProc (t : ProcTable) (id : String) (p : Proc) : ProcTable :=
  (id, p) :: removeProc t id

/-- The scheduler table `schedulers : HashMap<String, Scheduler>`; only
membership matters for the embedded claims, so it is the list of ids that
currently hold an armed scheduler. -/
abbrev SchedTable := List String

def removeSched (t : SchedTable) (id : String) : SchedTable :=
  t.filter (fun x => decide (x ≠ id))

def insertSched (t : SchedTable) (id : String) : SchedTable :=
  id :: removeSched t id

/-- The in-memory state of `StreamManager`: the persisted store plus the
two handle tables. -/
structure MState where
  db : Db
  procs : ProcTable
  scheds : SchedTable
deriving DecidableEq, Repr

/-- Outcomes of the external world consulted during `start_stream`:
whether `FFmpegProcess::start` succeeded, what the liveness re-probe
reports after the 2-second grace window, and what
`calculate_seconds_until` returns at the time of the call (for an
absolute schedule). -/
structure StartEnv where
  spawn_ok : Bool
  alive_after_grace : Bool
  abs_seconds : Option Nat
deriving DecidableEq, Repr

/-- The fixed grace window (seconds) `start_stream` sleeps before
re-probing liveness. -/
def grace_period_seconds : Nat := 2

/-- The delay computed by `setup_scheduler` from the stream's schedule:
`Duration` uses `to_seconds` of the stored duration, `Absolute` the
result of `calculate_seconds_until`, `Manual` arms nothing. -/
def stop_after_seconds (sc : ScheduleConfig) (absResult : Option Nat) : Option Nat :=
  match sc.schedule_type with
  | ScheduleType.duration => sc.duration.map DurationConfig.to_seconds
  | ScheduleType.absolute => sc.absolute.bind (fun _ => absResult)
  | ScheduleType.manual => none

/-- `StreamManager::setup_scheduler`: arms a scheduler for the id exactly
when the schedule yields a delay. -/
def setup_scheduler (s : MState) (id : String) (stream : Stream) (absResult : Option Nat) : MState :=
  match stop_after_seconds stream.schedule absResult with
  | some _ => { s with scheds := insertSched s.scheds id }
  | none => s

/-- `StreamManager::start_stream` (manager.rs lines 180-250).  Returns
the state after the call together with its result. -/
def start_stream (env : StartEnv) (now : Nat) (s : MState) (id : String) :
    MState × Except ManagerError Unit :=
  match get_stream s.db id with
  | none => (s, Except.error (ManagerError.notFound id))
  | some stream =>
    if stream.status = StreamStatus.live then
      (s, Except.error (ManagerError.alreadyRunning id))
    else if s.db.any (fun other =>
        decide (other.id ≠ id) && decide (other.youtube_key = stream.youtube_key)
          && (lookupProc s.procs other.id).isSome) then
      (s, Except.error (ManagerError.duplicateKey stream.youtube_key))
    else if env.spawn_ok = false then
      (s, Except.error (ManagerError.ffmpeg "spawn failed"))
    else
      let s1 : MState :=
        { s with procs := insertProc s.procs id { running := env.alive_after_grace, elapsed := 0 } }
      let is_running : Bool :=
        match lookupProc s1.procs id with
        | some p => p.running
        | none => false
      if is_running = false then
        let s2 : MState := { s1 with procs := removeProc s1.procs id }
        let s3 : MState := { s2 with db := update_stream_status s2.db id StreamStatus.error }
        (s3, Except.error (ManagerError.ffmpeg
          "FFmpeg process exited immediately - check video file or stream key"))
      else
        let db2 : Db := update_stream_started_at (update_stream_status s1.db id StreamStatus.live) id now
        let s2 : MState := { s1 with db := db2 }
        (setup_scheduler s2 id stream env.abs_seconds, Except.ok ())

/-- One observable step of `stop_stream_with_status`, in the order the
code performs them. -/
inductive StopEvent where
  | cancel_scheduler
  | persist_status (st : StreamStatus)
  | remove_and_stop_process
  | persist_stopped_at
  | persist_last_elapsed (secs : Nat)
deriving DecidableEq, Repr

/-- The event sequence of `StreamManager::stop_stream_with_status`
(manager.rs lines 256-291): capture the elapsed time from the handle (if
any) first, then cancel any armed scheduler, persist `Stopping`, remove
the handle from the table and run the process-stop sequence on it,
persist the final status and `stopped_at`, and finally persist the
captured elapsed time when a handle existed. -/
def stop_events (s : MState) (id : String) (final_status : StreamStatus) : List StopEvent :=
  let elapsed := (lookupProc s.procs id).map (fun p => p.elapsed)
  [StopEvent.cancel_scheduler, StopEvent.persist_status StreamStatus.stopping,
   StopEvent.remove_and_stop_process, StopEvent.persist_status final_status,
   StopEvent.persist_stopped_at]
  ++ (match elapsed with
      | some secs => [StopEvent.persist_last_elapsed secs]
      | none => [])

def apply_stop_event (id : String) (now : Nat) (s : MState) (e : StopEvent) : MState :=
  match e with
  | StopEvent.cancel_scheduler => { s with scheds := removeSched s.scheds id }
  | StopEvent.persist_status st => { s with db := update_stream_status s.db id st }
  | StopEvent.remove_and_stop_process => { s with procs := removeProc s.procs id }
  | StopEvent.persist_stopped_at => { s with db := update_stream_stopped_at s.db id now }
  | StopEvent.persist_last_elapsed secs => { s with db := update_stream_last_elapsed s.db id secs }

/-- `StreamManager::stop_stream_with_status`: applies the event sequence
in order.  It never looks the job up and `FFmpegProcess::stop` returns
`Ok` on every path, so the call always returns `Ok`. -/
def stop_stream_with_status (s : MState) (id : String) (final_status : StreamStatus) (now : Nat) :
    MState × Except ManagerError Unit :=
  ((stop_events s id final_status).foldl (apply_stop_event id now) s, Except.ok ())

def stop_stream (s : MState) (id : String) (now : Nat) : MState × Except ManagerError Unit :=
  stop_stream_with_status s id StreamStatus.completed now

/-- `StreamManager::add_stream` (manager.rs lines 138-178).  `new_id` is
the freshly generated UUID. -/
def add_stream (env : StartEnv) (new_id : String) (now : Nat) (s : MState) (input : StreamInput) :
    MState × Except ManagerError Stream :=
  if s.db.any (fun ex =>
      decide (ex.youtube_key = input.youtube_key) && decide (ex.status = StreamStatus.live)) then
    (s, Except.error (ManagerError.duplicateKey input.youtube_key))
  else
    let stream : Stream :=
      { id := new_id, name := input.name, youtube_key := input.youtube_key,
        video_path := input.video_path, status := StreamStatus.idle,
        schedule := input.schedule, started_at := none, stopped_at := none,
        created_at := input.created_at, elapsed_seconds := none,
        last_elapsed_seconds := none }
    let s1 : MState := { s with db := insert_stream s.db stream }
    let s2 : MState := if input.start_immediately then (start_stream env now s1 new_id).1 else s1
    (s2, Except.ok ((get_stream s2.db new_id).getD stream))

/-- The poll interval (seconds) of the background reconciliation loop. -/
def monitor_interval_seconds : Nat := 3

/-- The per-dead-entry persistence step of the reconciliation loop:
persist `Error`, `stopped_at = now` and the captured elapsed time for the
entry's id. -/
def dead_step (now : Nat) (db : Db) (q : String × Proc) : Db :=
  update_stream_last_elapsed
    (update_stream_stopped_at (update_stream_status db q.1 StreamStatus.error) q.1 now)
    q.1 q.2.elapsed

/-- One iteration of the background loop of `start_process_monitor`
(manager.rs lines 73-118): entries whose liveness probe reports not
running are removed from the table with their elapsed time captured, and
for each such entry `Error`, `stopped_at = now` and the captured elapsed
time are persisted. -/
def monitor_iteration (s : MState) (now : Nat) : MState :=
  let dead := s.procs.filter (fun q => !q.2.running)
  let procs' := s.procs.filter (fun q => q.2.running)
  let db' := dead.foldl (dead_step now) s.db
  { s with db := db', procs := procs' }

/-- The external encoder process of the job `id` exits on its own: the
handle stays in the table but its liveness probe now reports not
running.  (This is an environment event, not a manager operation.) -/
def kill_external (s : MState) (id : String) : MState :=
  { s with procs := s.procs.map (fun q =>
      if q.1 = id then (q.1, { q.2 with running := false }) else q) }

/-- An operation on a single job, for reasoning about sequences of
completed operations: a completed `start_stream` call (with its external
outcomes), a completed `stop_stream` call, the external death of the
job's process, or one completed iteration of the reconciliation loop. -/
inductive JobOp where
  | startOp (env : StartEnv) (now : Nat)
  | stopOp (now : Nat)
  | dieOp
  | monitorOp (now : Nat)
deriving DecidableEq, Repr

def apply_job_op (id : String) (s : MState) (op : JobOp) : MState :=
  match op with
  | JobOp.startOp env now => (start_stream env now s id).1
  | JobOp.stopOp now => (stop_stream s id now).1
  | JobOp.dieOp => kill_external s id
  | JobOp.monitorOp now => monitor_iteration s now

/-- The §3 invariant: the persisted status of the job `id` is `Live` iff
a process handle for `id` is present in the process table. -/
def live_iff_handle (id : String) (s : MState) : Prop :=
  ∀ st : Stream, get_stream s.db id = some st →
    (st.status = StreamStatus.live ↔ (lookupProc s.procs id).isSome = true)

/-- The manager state right after a job has been created: the job is
persisted (as `Idle` by `add_stream`) and both handle tables are empty. -/
def init_state (stream0 : Stream) : MState :=
  { db := [stream0], procs := [], scheds := [] }

/-! ### `StreamManager::get_db_path` (manager.rs lines 58-64)

The instance id is modelled as its UTF-8 byte sequence.  Rust's
`str::is_char_boundary(i)` holds when `i = 0`, when `i` equals the byte
length, or when the byte at index `i` is not a UTF-8 continuation byte
(i.e. not in `128..192`); indexing `&s[..i]` panics unless `i` is a
character boundary.  A panic is modelled as `none`. -/

def is_char_boundary (s : List Nat) (i : Nat) : Bool :=
  if i = 0 then true
  else
    match s.get? i with
    | none => decide (i = s.length)
    | some b => decide (b < 128 ∨ 192 ≤ b)

/-- Rust string slicing `&s[..n]`: the first `n` bytes when `n` is a
character boundary, a panic (`none`) otherwise. -/
def str_slice_to (s : List Nat) (n : Nat) : Option (List Nat) :=
  if is_char_boundary s n then some (s.take n) else none

/-- `get_db_path` builds the database file name from
`&instance_id[..8]`; the result is the variable 8-byte component of the
file name `streams_<component>.db` (or a panic, `none`). -/
def get_db_path (instance_id : List Nat) : Option (List Nat) :=
  str_slice_to instance_id 8

/-! ### Concrete fixtures used by the witnesses -/

def manual_schedule : ScheduleConfig :=
  { schedule_type := ScheduleType.manual, duration := none, absolute := none }

/-- A concrete stream record with the given id, key and status. -/
def stream_fixture (id key : String) (st : StreamStatus) : Stream :=
  { id := id, name := "A", youtube_key := key, video_path := "v", status := st,
    schedule := manual_schedule, started_at := none, stopped_at := none,
    created_at := 1, elapsed_seconds := none, last_elapsed_seconds := none }

/-! ## Theorems -/

/-! ### Store lemmas -/

theorem get_stream_cons (a : Stream) (l : Db) (id : String) :
    get_stream (a :: l) id = if a.id = id then some a else get_stream l id := by
  by_cases h : a.id = id
  · simp [get_stream, List.find?, h]
  · simp [get_stream, List.find?, h]

/-- An UPDATE-by-id rewrites the looked-up record for that id. -/
theorem get_stream_map_self (db : Db) (id : String) (g : Stream → Stream)
    (hg : ∀ s : Stream, (g s).id = s.id) :
    get_stream (db.map (fun s => if s.id = id then g s else s)) id =
      (get_stream db id).map g := by
  induction db with
  | nil => rfl
  | cons a l ih =>
    rw [List.map_cons, get_stream_cons, get_stream_cons]
    by_cases h : a.id = id
    · rw [if_pos h, if_pos (by rw [hg a]; exact h), if_pos h]
      simp
    · rw [if_neg h, if_neg h, if_neg h]
      exact ih

/-- An UPDATE-by-id leaves the looked-up record of any other id alone. -/
theorem get_stream_map_ne (db : Db) (id id' : String) (g : Stream → Stream)
    (hg : ∀ s : Stream, (g s).id = s.id) (hne : id ≠ id') :
    get_stream (db.map (fun s => if s.id = id' then g s else s)) id =
      get_stream db id := by
  induction db with
  | nil => rfl
  | cons a l ih =>
    rw [List.map_cons, get_stream_cons, get_stream_cons]
    by_cases h : a.id = id'
    · have hna : ¬ a.id = id := by rw [h]; exact fun hh => hne hh.symm
      rw [if_pos h, if_neg (by rw [hg a]; exact hna), if_neg hna]
      exact ih
    · rw [if_neg h]
      by_cases h2 : a.id = id
      · rw [if_pos h2, if_pos h2]
      · rw [if_neg h2, if_neg h2]
        exact ih

/-- An UPDATE-by-id affecting no row is the identity. -/
theorem map_update_of_absent (db : Db) (id : String) (g : Stream → Stream)
    (h : ∀ s ∈ db, s.id ≠ id) :
    db.map (fun s => if s.id = id then g s else s) = db := by
  have := List.map_congr_left (l := db)
    (f := fun s => if s.id = id then g s else s) (g := fun s => s)
    (fun a ha => by simp [h a ha])
  simpa using this

theorem get_stream_found_id (db : Db) (id : String) (st : Stream)
    (h : get_stream db id = some st) : st.id = id := by
  have := List.find?_some h
  simpa using this

theorem get_stream_found_mem (db : Db) (id : String) (st : Stream)
    (h : get_stream db id = some st) : st ∈ db :=
  List.mem_of_find?_eq_some h

/-! ### Process-table lemmas -/

theorem lookupProc_insert_self (t : ProcTable) (id : String) (p : Proc) :
    lookupProc (insertProc t id p) id = some p := by
  simp [lookupProc, insertProc, List.find?]

theorem lookupProc_remove_self (t : ProcTable) (id : String) :
    lookupProc (removeProc t id) id = none := by
  have h : (removeProc t id).find? (fun q => decide (q.1 = id)) = none := by
    rw [List.find?_eq_none]
    intro x hx
    have := List.of_mem_filter hx
    simpa using this
  simp [lookupProc, h]

theorem lookupProc_cons (q : String × Proc) (t : ProcTable) (id : String) :
    lookupProc (q :: t) id = if q.1 = id then some q.2 else lookupProc t id := by
  by_cases h : q.1 = id
  · simp [lookupProc, List.find?, h]
  · simp [lookupProc, List.find?, h]

theorem removeProc_cons (q : String × Proc) (t : ProcTable) (id : String) :
    removeProc (q :: t) id = if q.1 = id then removeProc t id else q :: removeProc t id := by
  by_cases h : q.1 = id
  · simp [removeProc, List.filter_cons, h]
  · simp [removeProc, List.filter_cons, h]

theorem lookupProc_remove_ne (t : ProcTable) (id id' : String) (h : id' ≠ id) :
    lookupProc (removeProc t id) id' = lookupProc t id' := by
  induction t with
  | nil => rfl
  | cons q l ih =>
    rw [removeProc_cons, lookupProc_cons]
    by_cases hq : q.1 = id
    · have hq' : ¬ q.1 = id' := by rw [hq]; exact fun hh => h hh.symm
      rw [if_pos hq, if_neg hq']
      exact ih
    · rw [if_neg hq, lookupProc_cons]
      by_cases hq2 : q.1 = id'
      · rw [if_pos hq2, if_pos hq2]
      · rw [if_neg hq2, if_neg hq2]
        exact ih

theorem lookupProc_insert_ne (t : ProcTable) (id id' : String) (p : Proc) (h : id' ≠ id) :
    lookupProc (insertProc t id p) id' = lookupProc t id' := by
  have h' : ¬ id = id' := fun hh => h hh.symm
  rw [insertProc, lookupProc_cons]
  simp only [if_neg h']
  exact lookupProc_remove_ne t id id' h

theorem removeProc_insertProc (t : ProcTable) (id : String) (p : Proc) :
    removeProc (insertProc t id p) id = removeProc t id := by
  simp [insertProc, removeProc, List.filter_cons, List.filter_filter]

theorem lookupProc_some_mem (t : ProcTable) (id : String) (p : Proc)
    (h : lookupProc t id = some p) : (id, p) ∈ t := by
  simp only [lookupProc, Option.map_eq_some'] at h
  obtain ⟨q, hq, h2⟩ := h
  have hid := List.find?_some hq
  simp only [decide_eq_true_eq] at hid
  have hmem := List.mem_of_find?_eq_some hq
  have : q = (id, p) := by
    cases q with
    | mk a b => simp at hid h2; simp [hid, h2]
  rw [this] at hmem
  exact hmem

theorem lookupProc_eq_none_of_not_key (t : ProcTable) (id : String)
    (h : id ∉ t.map Prod.fst) : lookupProc t id = none := by
  have hf : t.find? (fun q => decide (q.1 = id)) = none := by
    rw [List.find?_eq_none]
    intro x hx
    simp only [decide_eq_true_eq]
    intro hxid
    exact h (by rw [← hxid]; exact List.mem_map_of_mem Prod.fst hx)
  simp [lookupProc, hf]

/-! ### UPDATE-by-id instances -/

theorem get_stream_update_status_self (db : Db) (id : String) (st : StreamStatus) :
    get_stream (update_stream_status db id st) id =
      (get_stream db id).map (fun s => { s with status := st }) :=
  get_stream_map_self db id _ (fun _ => rfl)

theorem get_stream_update_status_ne (db : Db) (id id' : String) (st : StreamStatus)
    (h : id ≠ id') :
    get_stream (update_stream_status db id' st) id = get_stream db id :=
  get_stream_map_ne db id id' _ (fun _ => rfl) h

theorem get_stream_update_started_self (db : Db) (id : String) (now : Nat) :
    get_stream (update_stream_started_at db id now) id =
      (get_stream db id).map (fun s => { s with started_at := some now }) :=
  get_stream_map_self db id _ (fun _ => rfl)

theorem get_stream_update_started_ne (db : Db) (id id' : String) (now : Nat)
    (h : id ≠ id') :
    get_stream (update_stream_started_at db id' now) id = get_stream db id :=
  get_stream_map_ne db id id' _ (fun _ => rfl) h

theorem get_stream_update_stopped_self (db : Db) (id : String) (now : Nat) :
    get_stream (update_stream_stopped_at db id now) id =
      (get_stream db id).map (fun s => { s with stopped_at := some now }) :=
  get_stream_map_self db id _ (fun _ => rfl)

theorem get_stream_update_stopped_ne (db : Db) (id id' : String) (now : Nat)
    (h : id ≠ id') :
    get_stream (update_stream_stopped_at db id' now) id = get_stream db id :=
  get_stream_map_ne db id id' _ (fun _ => rfl) h

theorem get_stream_update_elapsed_self (db : Db) (id : String) (secs : Nat) :
    get_stream (update_stream_last_elapsed db id secs) id =
      (get_stream db id).map (fun s => { s with last_elapsed_seconds := some secs }) :=
  get_stream_map_self db id _ (fun _ => rfl)

theorem get_stream_update_elapsed_ne (db : Db) (id id' : String) (secs : Nat)
    (h : id ≠ id') :
    get_stream (update_stream_last_elapsed db id' secs) id = get_stream db id :=
  get_stream_map_ne db id id' _ (fun _ => rfl) h

theorem update_status_absent (db : Db) (id : String) (st : StreamStatus)
    (h : get_stream db id = none) : update_stream_status db id st = db :=
  map_update_of_absent db id _ (fun s hs => by
    have := List.find?_eq_none.mp h s hs
    simpa using this)

theorem update_stopped_absent (db : Db) (id : String) (now : Nat)
    (h : get_stream db id = none) : update_stream_stopped_at db id now = db :=
  map_update_of_absent db id _ (fun s hs => by
    have := List.find?_eq_none.mp h s hs
    simpa using this)

theorem update_elapsed_absent (db : Db) (id : String) (secs : Nat)
    (h : get_stream db id = none) : update_stream_last_elapsed db id secs = db :=
  map_update_of_absent db id _ (fun s hs => by
    have := List.find?_eq_none.mp h s hs
    simpa using this)

/-! ### Key-uniqueness lemmas -/

theorem keys_nodup_filter (t : ProcTable) (f : String × Proc → Bool)
    (h : (t.map Prod.fst).Nodup) : ((t.filter f).map Prod.fst).Nodup :=
  h.sublist ((t.filter_sublist).map Prod.fst)

theorem keys_nodup_removeProc (t : ProcTable) (id : String)
    (h : (t.map Prod.fst).Nodup) : ((removeProc t id).map Prod.fst).Nodup :=
  keys_nodup_filter t _ h

theorem keys_nodup_insertProc (t : ProcTable) (id : String) (p : Proc)
    (h : (t.map Prod.fst).Nodup) : ((insertProc t id p).map Prod.fst).Nodup := by
  rw [insertProc, List.map_cons, List.nodup_cons]
  refine ⟨?_, keys_nodup_removeProc t id h⟩
  intro hmem
  obtain ⟨x, hx, hxid⟩ := List.mem_map.mp hmem
  have := List.of_mem_filter hx
  simp only [decide_eq_true_eq] at this
  exact this hxid

theorem keys_kill_external (s : MState) (id : String) :
    (kill_external s id).procs.map Prod.fst = s.procs.map Prod.fst := by
  unfold kill_external
  rw [List.map_map]
  apply List.map_congr_left
  intro q _
  by_cases h : q.1 = id <;> simp [h]

theorem lookupProc_kill_external (s : MState) (id id' : String) :
    (lookupProc (kill_external s id).procs id').isSome = (lookupProc s.procs id').isSome := by
  unfold kill_external lookupProc
  rw [List.find?_map]
  have hcomp : ((fun q : String × Proc => decide (q.1 = id')) ∘
      (fun q : String × Proc => if q.1 = id then (q.1, { q.2 with running := false }) else q)) =
      (fun q : String × Proc => decide (q.1 = id')) := by
    funext q
    by_cases h : q.1 = id <;> simp [h]
  rw [hcomp]
  cases s.procs.find? (fun q => decide (q.1 = id')) <;> simp

/-- Looking up in the table the monitor keeps (the running entries): a
running entry survives, a dead one is gone. -/
theorem lookupProc_filter_running (t : ProcTable) (id : String)
    (h : (t.map Prod.fst).Nodup) :
    lookupProc (t.filter (fun q => q.2.running)) id =
      (lookupProc t id).bind (fun p => if p.running = true then some p else none) := by
  induction t with
  | nil => rfl
  | cons q l ih =>
    rw [List.map_cons, List.nodup_cons] at h
    rw [List.filter_cons, lookupProc_cons]
    by_cases hq : q.1 = id
    · rw [if_pos hq]
      by_cases hr : q.2.running = true
      · rw [if_pos hr, lookupProc_cons, if_pos hq]
        simp [hr]
      · rw [if_neg hr]
        have hnk : id ∉ (l.filter (fun q => q.2.running)).map Prod.fst := by
          intro hmem
          obtain ⟨x, hx, hxid⟩ := List.mem_map.mp hmem
          have hxl := List.mem_of_mem_filter hx
          exact h.1 (hq ▸ hxid ▸ List.mem_map_of_mem Prod.fst hxl)
        rw [lookupProc_eq_none_of_not_key _ _ hnk]
        simp [hr]
    · rw [if_neg hq]
      by_cases hr : q.2.running = true
      · rw [if_pos hr, lookupProc_cons, if_neg hq]
        exact ih h.2
      · rw [if_neg hr]
        exact ih h.2

/-! ### Reconciliation-fold lemmas -/

theorem get_stream_dead_step_self (now : Nat) (db : Db) (id : String) (p : Proc) :
    get_stream (dead_step now db (id, p)) id =
      (get_stream db id).map (fun s =>
        { s with status := StreamStatus.error, stopped_at := some now,
                 last_elapsed_seconds := some p.elapsed }) := by
  unfold dead_step
  rw [get_stream_update_elapsed_self, get_stream_update_stopped_self,
      get_stream_update_status_self]
  cases get_stream db id <;> rfl

theorem get_stream_dead_step_ne (now : Nat) (db : Db) (q : String × Proc) (id : String)
    (h : q.1 ≠ id) :
    get_stream (dead_step now db q) id = get_stream db id := by
  unfold dead_step
  have h' : id ≠ q.1 := fun hh => h hh.symm
  rw [get_stream_update_elapsed_ne _ _ _ _ h', get_stream_update_stopped_ne _ _ _ _ h',
      get_stream_update_status_ne _ _ _ _ h']

theorem get_stream_fold_dead_absent (l : List (String × Proc)) (now : Nat) (db : Db)
    (id : String) (h : ∀ q ∈ l, q.1 ≠ id) :
    get_stream (l.foldl (dead_step now) db) id = get_stream db id := by
  induction l generalizing db with
  | nil => rfl
  | cons q r ih =>
    rw [List.foldl_cons, ih (dead_step now db q) (fun x hx => h x (List.mem_cons_of_mem q hx)),
        get_stream_dead_step_ne now db q id (h q (List.mem_cons_self q r))]

theorem get_stream_fold_dead_mem (l : List (String × Proc)) (now : Nat) (db : Db)
    (id : String) (p : Proc) (hnd : (l.map Prod.fst).Nodup) (hmem : (id, p) ∈ l) :
    get_stream (l.foldl (dead_step now) db) id =
      (get_stream db id).map (fun s =>
        { s with status := StreamStatus.error, stopped_at := some now,
                 last_elapsed_seconds := some p.elapsed }) := by
  induction l generalizing db with
  | nil => cases hmem
  | cons q r ih =>
    rw [List.map_cons, List.nodup_cons] at hnd
    rw [List.foldl_cons]
    rcases List.mem_cons.mp hmem with hq | hr
    · have hkeys : ∀ x ∈ r, x.1 ≠ id := by
        intro x hx he
        apply hnd.1
        have hqid : q.1 = id := by rw [← hq]
        rw [hqid, ← he]
        exact List.mem_map_of_mem Prod.fst hx
      rw [get_stream_fold_dead_absent r now _ id hkeys, ← hq, get_stream_dead_step_self]
    · have hq1 : q.1 ≠ id := by
        intro he
        apply hnd.1
        rw [he]
        exact List.mem_map_of_mem Prod.fst hr
      rw [ih (dead_step now db q) hnd.2 hr, get_stream_dead_step_ne now db q id hq1]

/-- Claim C1, counterexample: the very first action of
`FFmpegProcess::stop` is a forced kill, performed although the 3-second
bound was not exceeded (the child exits within the bound), so the claim
that a graceful termination request comes first and a force-kill happens
only when the bound is exceeded is false. -/
theorem c1_stop_counterexample :
    (FFmpegProcess.stop_trace FFmpegProcess.WaitOutcome.exited).head? =
      some FFmpegProcess.FFAction.kill ∧
    FFmpegProcess.FFAction.kill ∈ FFmpegProcess.stop_trace FFmpegProcess.WaitOutcome.exited ∧
    FFmpegProcess.WaitOutcome.exited ≠ FFmpegProcess.WaitOutcome.timed_out := by
  refine ⟨rfl, ?_, by decide⟩
  simp [FFmpegProcess.stop_trace]

/-- Claim C1, amended: for every call to `FFmpegProcess::stop`, the
wrapper first force-kills the process, then waits up to a fixed bound of
3 seconds for it to exit; only if that bound is exceeded does it issue a
second force-kill followed by a final wait, and stop reports success on
every path. -/
theorem c1_stop_sequence (o : FFmpegProcess.WaitOutcome) :
    (FFmpegProcess.stop_trace o).head? = some FFmpegProcess.FFAction.kill ∧
    (o ≠ FFmpegProcess.WaitOutcome.timed_out →
      FFmpegProcess.stop_trace o =
        [FFmpegProcess.FFAction.kill, FFmpegProcess.FFAction.wait_timeout 3]) ∧
    (o = FFmpegProcess.WaitOutcome.timed_out →
      FFmpegProcess.stop_trace o =
        [FFmpegProcess.FFAction.kill, FFmpegProcess.FFAction.wait_timeout 3,
         FFmpegProcess.FFAction.kill, FFmpegProcess.FFAction.wait]) ∧
    FFmpegProcess.stop_result o = Except.ok () := by
  cases o <;> refine ⟨rfl, ?_, ?_, rfl⟩ <;> intro h <;> simp_all [FFmpegProcess.stop_trace]

/-- Claim C8: for parse results that resolve to an absolute instant,
`calculate_seconds_until` returns the number of whole seconds until the
instant when it is in the future (floor of the nanosecond difference),
exactly 0 when it is in the past (or now), and the value is never
negative; an unparseable input yields `none`. -/
theorem c8_calculate_seconds_until (target now : Int) :
    (now < target →
      ∃ r : Nat, Scheduler.calculate_seconds_until (some target) now = some r ∧
        (r : Int) * 1000000000 ≤ target - now ∧
        target - now < ((r : Int) + 1) * 1000000000) ∧
    (target ≤ now → Scheduler.calculate_seconds_until (some target) now = some 0) ∧
    (∀ r : Nat, Scheduler.calculate_seconds_until (some target) now = some r → 0 ≤ (r : Int)) ∧
    Scheduler.calculate_seconds_until none now = none := by
  refine ⟨?_, ?_, ?_, rfl⟩
  · intro h
    refine ⟨((target - now) / 1000000000).toNat, ?_, ?_, ?_⟩
    · simp [Scheduler.calculate_seconds_until, if_pos h]
    all_goals {
      have ha : (0 : Int) ≤ target - now := by omega
      have hq0 : (0 : Int) ≤ (target - now) / 1000000000 :=
        Int.ediv_nonneg ha (by norm_num)
      have hcast : ((((target - now) / 1000000000).toNat : Int)) =
          (target - now) / 1000000000 := Int.toNat_of_nonneg hq0
      have hdm := Int.ediv_add_emod (target - now) 1000000000
      have hm0 : 0 ≤ (target - now) % 1000000000 :=
        Int.emod_nonneg _ (by norm_num)
      have hml : (target - now) % 1000000000 < 1000000000 :=
        Int.emod_lt_of_pos _ (by norm_num)
      rw [hcast]
      nlinarith [hdm, hm0, hml]
    }
  · intro h
    simp [Scheduler.calculate_seconds_until, if_neg (not_lt.mpr h)]
  · intro r _
    exact Int.natCast_nonneg r

/-- Claim C9: `get_db_path` succeeds exactly when byte index 8 is a
character boundary of the instance id (which forces the id to be at least
8 bytes long); every shorter id makes the slice `&instance_id[..8]`
panic, and on success the path component is exactly the first 8 bytes. -/
theorem c9_get_db_path (s : List Nat) :
    ((get_db_path s).isSome = true ↔ (8 ≤ s.length ∧ is_char_boundary s 8 = true)) ∧
    (s.length < 8 → get_db_path s = none) ∧
    (∀ p, get_db_path s = some p → p = s.take 8 ∧ p.length = 8) := by
  by_cases hb : is_char_boundary s 8 = true
  · have hlen : 8 ≤ s.length := by
      unfold is_char_boundary at hb
      rw [if_neg (by decide : ¬(8 = 0))] at hb
      cases hg : s.get? 8 with
      | none =>
        rw [hg] at hb
        simp only [decide_eq_true_eq] at hb
        omega
      | some b =>
        have hlt : 8 < s.length := by
          by_contra hge
          have : s.get? 8 = none := List.get?_eq_none.mpr (by omega)
          rw [this] at hg
          exact Option.noConfusion hg
        omega
    refine ⟨?_, ?_, ?_⟩
    · simp [get_db_path, str_slice_to, hb, hlen]
    · intro h; omega
    · intro p hp
      simp only [get_db_path, str_slice_to, if_pos hb, Option.some.injEq] at hp
      subst hp
      exact ⟨rfl, by simp [List.length_take]; omega⟩
  · refine ⟨?_, ?_, ?_⟩
    · simp [get_db_path, str_slice_to, hb]
    · intro _; simp [get_db_path, str_slice_to, hb]
    · intro p hp
      simp [get_db_path, str_slice_to, hb] at hp

/-! ### Scheduler timer lemmas (claim C7) -/

/-- A cancellation flag set no later than the fire target is always seen
by one of the timer task's checks, so the callback never runs. -/
theorem Scheduler.task_cancelled (target c : Nat) (hc : c ≤ target) :
    ∀ now, Scheduler.task target (some c) now = none := by
  have key : ∀ k now, target - now ≤ k → Scheduler.task target (some c) now = none := by
    intro k
    induction k with
    | zero =>
      intro now hk
      have hnl : ¬ now < target := by omega
      rw [Scheduler.task.eq_def, dif_neg hnl]
      have hf : Scheduler.cancel_flag (some c) now = true := by
        simp only [Scheduler.cancel_flag, decide_eq_true_eq]
        omega
      simp [hf]
    | succ k ih =>
      intro now hk
      rw [Scheduler.task.eq_def]
      by_cases hl : now < target
      · rw [dif_pos hl]
        by_cases hf : Scheduler.cancel_flag (some c) now = true
        · simp [hf]
        · simp only [hf, if_false, Bool.false_eq_true]
          apply ih
          have hm : 0 < min (target - now) Scheduler.poll_slice_ms := by
            have h1 : 0 < target - now := by omega
            have h2 : 0 < Scheduler.poll_slice_ms := by decide
            exact lt_min h1 h2
          omega
      · rw [dif_neg hl]
        have hf : Scheduler.cancel_flag (some c) now = true := by
          simp only [Scheduler.cancel_flag, decide_eq_true_eq]
          omega
        simp [hf]
  intro now
  exact key (target - now) now le_rfl

/-- With no cancellation, the timer task fires exactly at the target
time. -/
theorem Scheduler.task_fires (target : Nat) :
    ∀ now, now ≤ target → Scheduler.task target none now = some target := by
  have key : ∀ k now, target - now ≤ k → now ≤ target →
      Scheduler.task target none now = some target := by
    intro k
    induction k with
    | zero =>
      intro now hk hle
      have hnl : ¬ now < target := by omega
      have heq : now = target := by omega
      rw [Scheduler.task.eq_def, dif_neg hnl]
      simp [Scheduler.cancel_flag, heq]
    | succ k ih =>
      intro now hk hle
      rw [Scheduler.task.eq_def]
      by_cases hl : now < target
      · rw [dif_pos hl]
        have hm : 0 < min (target - now) Scheduler.poll_slice_ms := by
          have h1 : 0 < target - now := by omega
          have h2 : 0 < Scheduler.poll_slice_ms := by decide
          exact lt_min h1 h2
        have hminle : min (target - now) Scheduler.poll_slice_ms ≤ target - now :=
          min_le_left _ _
        simp only [Scheduler.cancel_flag, if_false]
        apply ih
        · omega
        · omega
      · rw [dif_neg hl]
        have heq : now = target := by omega
        simp [Scheduler.cancel_flag, heq]
  intro now hle
  exact key (target - now) now le_rfl hle

/-- Claim C7: for a timer created with a delay of `d` seconds (`1000 * d`
on the millisecond clock): if the cancellation flag is set at any time
`c` strictly before the delay elapses, the action never runs; if it is
never set, the action runs exactly once, at the target time — at least
the requested delay, never early; and cancellation is polled in slices of
100 ms. -/
theorem c7_scheduler_timer (d c : Nat) (hc : c < 1000 * d) :
    Scheduler.run (1000 * d) (some c) = none ∧
    (∃ t, Scheduler.run (1000 * d) none = some t ∧ 1000 * d ≤ t) ∧
    Scheduler.poll_slice_ms = 100 := by
  refine ⟨?_, ⟨1000 * d, ?_, le_rfl⟩, rfl⟩
  · exact Scheduler.task_cancelled (1000 * d) c (by omega) 0
  · exact Scheduler.task_fires (1000 * d) 0 (by omega)

/-! ### General shape of the stop operation -/

theorem stop_procs_eq (s : MState) (id : String) (fs : StreamStatus) (now : Nat) :
    (stop_stream_with_status s id fs now).1.procs = removeProc s.procs id := by
  cases hlp : lookupProc s.procs id <;>
    simp [stop_stream_with_status, stop_events, hlp, apply_stop_event]

theorem stop_scheds_eq (s : MState) (id : String) (fs : StreamStatus) (now : Nat) :
    (stop_stream_with_status s id fs now).1.scheds = removeSched s.scheds id := by
  cases hlp : lookupProc s.procs id <;>
    simp [stop_stream_with_status, stop_events, hlp, apply_stop_event]

theorem stop_db_eq (s : MState) (id : String) (fs : StreamStatus) (now : Nat) :
    (stop_stream_with_status s id fs now).1.db =
      (match lookupProc s.procs id with
       | some p => update_stream_last_elapsed
           (update_stream_stopped_at
             (update_stream_status (update_stream_status s.db id StreamStatus.stopping) id fs)
             id now) id p.elapsed
       | none => update_stream_stopped_at
           (update_stream_status (update_stream_status s.db id StreamStatus.stopping) id fs)
           id now) := by
  cases hlp : lookupProc s.procs id <;>
    simp [stop_stream_with_status, stop_events, hlp, apply_stop_event]

theorem stop_db_status (s : MState) (id : String) (fs : StreamStatus) (now : Nat)
    (st' : Stream)
    (h : get_stream (stop_stream_with_status s id fs now).1.db id = some st') :
    st'.status = fs := by
  rw [stop_db_eq] at h
  cases hlp : lookupProc s.procs id <;> rw [hlp] at h
  · rw [get_stream_update_stopped_self, get_stream_update_status_self,
        get_stream_update_status_self] at h
    cases hg : get_stream s.db id <;> rw [hg] at h
    · simp at h
    · simp only [Option.map_some', Option.some.injEq] at h
      rw [← h]
  · rw [get_stream_update_elapsed_self, get_stream_update_stopped_self,
        get_stream_update_status_self, get_stream_update_status_self] at h
    cases hg : get_stream s.db id <;> rw [hg] at h
    · simp at h
    · simp only [Option.map_some', Option.some.injEq] at h
      rw [← h]

theorem stop_db_ne (s : MState) (id : String) (fs : StreamStatus) (now : Nat)
    (id' : String) (h : id' ≠ id) :
    get_stream (stop_stream_with_status s id fs now).1.db id' = get_stream s.db id' := by
  rw [stop_db_eq]
  cases hlp : lookupProc s.procs id
  · rw [get_stream_update_stopped_ne _ _ _ _ h, get_stream_update_status_ne _ _ _ _ h,
        get_stream_update_status_ne _ _ _ _ h]
  · rw [get_stream_update_elapsed_ne _ _ _ _ h, get_stream_update_stopped_ne _ _ _ _ h,
        get_stream_update_status_ne _ _ _ _ h, get_stream_update_status_ne _ _ _ _ h]

/-- Claim C5: one iteration of the reconciliation loop (which polls every
3 seconds) removes from the process table exactly the entries whose
liveness probe reports not running, and for a dead entry persists
`Error`, `stopped_at = now` and `last_elapsed_seconds` equal to the
elapsed time captured before removal (in particular non-null). -/
theorem c5_monitor_reconciliation (s : MState) (now : Nat) (id : String) (p : Proc)
    (st : Stream)
    (hwf : (s.procs.map Prod.fst).Nodup)
    (hp : lookupProc s.procs id = some p)
    (hdead : p.running = false)
    (hst : get_stream s.db id = some st) :
    (∀ id', lookupProc (monitor_iteration s now).procs id' =
      (lookupProc s.procs id').bind (fun q => if q.running = true then some q else none)) ∧
    get_stream (monitor_iteration s now).db id =
      some { st with status := StreamStatus.error, stopped_at := some now,
                     last_elapsed_seconds := some p.elapsed } ∧
    monitor_interval_seconds = 3 := by
  refine ⟨?_, ?_, rfl⟩
  · intro id'
    exact lookupProc_filter_running s.procs id' hwf
  · have hmem : (id, p) ∈ s.procs := lookupProc_some_mem _ _ _ hp
    have hmemdead : (id, p) ∈ s.procs.filter (fun q => !q.2.running) :=
      List.mem_filter.mpr ⟨hmem, by simp [hdead]⟩
    have hnd : ((s.procs.filter (fun q => !q.2.running)).map Prod.fst).Nodup :=
      keys_nodup_filter _ _ hwf
    show get_stream ((s.procs.filter (fun q => !q.2.running)).foldl (dead_step now) s.db) id = _
    rw [get_stream_fold_dead_mem _ now s.db id p hnd hmemdead, hst]
    rfl

/-- Claim C5 witness: a single dead process entry is reconciled. -/
theorem c5_monitor_reconciliation_witness :
    (∀ id', lookupProc
        (monitor_iteration ⟨[stream_fixture "a" "k" StreamStatus.live], [("a", ⟨false, 42⟩)], []⟩ 99).procs id' =
      (lookupProc ([("a", ⟨false, 42⟩)] : ProcTable) id').bind
        (fun q => if q.running = true then some q else none)) ∧
    get_stream
        (monitor_iteration ⟨[stream_fixture "a" "k" StreamStatus.live], [("a", ⟨false, 42⟩)], []⟩ 99).db "a" =
      some { stream_fixture "a" "k" StreamStatus.live with
               status := StreamStatus.error,
               stopped_at := some 99,
               last_elapsed_seconds := some 42 } ∧
    monitor_interval_seconds = 3 :=
  c5_monitor_reconciliation ⟨[stream_fixture "a" "k" StreamStatus.live], [("a", ⟨false, 42⟩)], []⟩
    99 "a" ⟨false, 42⟩ (stream_fixture "a" "k" StreamStatus.live)
    (by decide) (by decide) (by decide) (by decide)

/-- Claim C4: a user-initiated stop captures the elapsed time from the
handle, then performs, in order: cancel the armed scheduler, persist
`Stopping`, remove the handle and run the process stop on it, persist the
final `Completed` status, persist `stopped_at = now`, and persist the
captured `last_elapsed_seconds`; the resulting persisted record and
tables reflect exactly that. -/
theorem c4_stop_sequence_order (s : MState) (id : String) (now : Nat) (p : Proc)
    (st : Stream)
    (hp : lookupProc s.procs id = some p)
    (hst : get_stream s.db id = some st) :
    stop_events s id StreamStatus.completed =
      [StopEvent.cancel_scheduler, StopEvent.persist_status StreamStatus.stopping,
       StopEvent.remove_and_stop_process, StopEvent.persist_status StreamStatus.completed,
       StopEvent.persist_stopped_at, StopEvent.persist_last_elapsed p.elapsed] ∧
    (stop_stream s id now).2 = Except.ok () ∧
    get_stream (stop_stream s id now).1.db id =
      some { st with status := StreamStatus.completed, stopped_at := some now,
                     last_elapsed_seconds := some p.elapsed } ∧
    lookupProc (stop_stream s id now).1.procs id = none ∧
    id ∉ (stop_stream s id now).1.scheds := by
  have hev : stop_events s id StreamStatus.completed =
      [StopEvent.cancel_scheduler, StopEvent.persist_status StreamStatus.stopping,
       StopEvent.remove_and_stop_process, StopEvent.persist_status StreamStatus.completed,
       StopEvent.persist_stopped_at, StopEvent.persist_last_elapsed p.elapsed] := by
    simp [stop_events, hp]
  have hstate : (stop_stream s id now).1 =
      { db := update_stream_last_elapsed
                (update_stream_stopped_at
                  (update_stream_status (update_stream_status s.db id StreamStatus.stopping)
                    id StreamStatus.completed) id now) id p.elapsed,
        procs := removeProc s.procs id,
        scheds := removeSched s.scheds id } := by
    show ((stop_events s id StreamStatus.completed).foldl (apply_stop_event id now) s) = _
    rw [hev]
    simp [apply_stop_event]
  refine ⟨hev, rfl, ?_, ?_, ?_⟩
  · rw [hstate]
    show get_stream (update_stream_last_elapsed _ _ _) _ = _
    rw [get_stream_update_elapsed_self, get_stream_update_stopped_self,
        get_stream_update_status_self, get_stream_update_status_self, hst]
    rfl
  · rw [hstate]
    exact lookupProc_remove_self s.procs id
  · rw [hstate]
    show id ∉ removeSched s.scheds id
    simp [removeSched, List.mem_filter]

/-- Claim C4 witness: stopping a live job with an armed scheduler. -/
theorem c4_stop_sequence_order_witness :
    stop_events ⟨[stream_fixture "a" "k" StreamStatus.live], [("a", ⟨true, 7⟩)], ["a"]⟩
        "a" StreamStatus.completed =
      [StopEvent.cancel_scheduler, StopEvent.persist_status StreamStatus.stopping,
       StopEvent.remove_and_stop_process, StopEvent.persist_status StreamStatus.completed,
       StopEvent.persist_stopped_at, StopEvent.persist_last_elapsed 7] ∧
    (stop_stream ⟨[stream_fixture "a" "k" StreamStatus.live], [("a", ⟨true, 7⟩)], ["a"]⟩ "a" 50).2 =
      Except.ok () ∧
    get_stream
        (stop_stream ⟨[stream_fixture "a" "k" StreamStatus.live], [("a", ⟨true, 7⟩)], ["a"]⟩ "a" 50).1.db "a" =
      some { stream_fixture "a" "k" StreamStatus.live with
               status := StreamStatus.completed,
               stopped_at := some 50,
               last_elapsed_seconds := some 7 } ∧
    lookupProc
        (stop_stream ⟨[stream_fixture "a" "k" StreamStatus.live], [("a", ⟨true, 7⟩)], ["a"]⟩ "a" 50).1.procs "a" =
      none ∧
    "a" ∉ (stop_stream ⟨[stream_fixture "a" "k" StreamStatus.live], [("a", ⟨true, 7⟩)], ["a"]⟩ "a" 50).1.scheds :=
  c4_stop_sequence_order ⟨[stream_fixture "a" "k" StreamStatus.live], [("a", ⟨true, 7⟩)], ["a"]⟩
    "a" 50 ⟨true, 7⟩ (stream_fixture "a" "k" StreamStatus.live)
    (by decide) (by decide)

/-- Claim C3: duplicate destination keys are rejected at both creation
and start time, and stopping unblocks the key.  With job A live (persisted
`Live`, and holding the only process handle) under key `k`, and job B a
different persisted job with the same key and not `Live`: adding a new
job with key `k` fails with `DuplicateKey`; starting B fails with
`DuplicateKey`; and after stopping A, starting B succeeds. -/
theorem c3_duplicate_key (s : MState) (idA idB : String) (k : String)
    (stA stB : Stream) (input : StreamInput) (envAdd envB : StartEnv)
    (newId : String) (nowAdd nowB nowStop now2 : Nat)
    (hA : get_stream s.db idA = some stA)
    (hAkey : stA.youtube_key = k)
    (hAlive : stA.status = StreamStatus.live)
    (hAproc : (lookupProc s.procs idA).isSome = true)
    (hB : get_stream s.db idB = some stB)
    (hBkey : stB.youtube_key = k)
    (hBnl : ¬ stB.status = StreamStatus.live)
    (hne : idB ≠ idA)
    (hinput : input.youtube_key = k)
    (honly : ∀ q ∈ s.procs, q.1 = idA)
    (hspawn : envB.spawn_ok = true)
    (halive : envB.alive_after_grace = true) :
    (add_stream envAdd newId nowAdd s input).2 =
      Except.error (ManagerError.duplicateKey k) ∧
    (start_stream envB nowB s idB).2 =
      Except.error (ManagerError.duplicateKey k) ∧
    (start_stream envB now2 (stop_stream s idA nowStop).1 idB).2 = Except.ok () := by
  have hAmem : stA ∈ s.db := get_stream_found_mem _ _ _ hA
  have hAid : stA.id = idA := get_stream_found_id _ _ _ hA
  refine ⟨?_, ?_, ?_⟩
  · have hany : s.db.any (fun ex =>
        decide (ex.youtube_key = input.youtube_key)
          && decide (ex.status = StreamStatus.live)) = true :=
      List.any_eq_true.mpr ⟨stA, hAmem, by simp [hAkey, hinput, hAlive]⟩
    rw [add_stream, if_pos hany, hinput]
  · have hany : s.db.any (fun other =>
        decide (other.id ≠ idB) && decide (other.youtube_key = stB.youtube_key)
          && (lookupProc s.procs other.id).isSome) = true := by
      refine List.any_eq_true.mpr ⟨stA, hAmem, ?_⟩
      rw [hAid]
      simp only [Bool.and_eq_true, decide_eq_true_eq]
      exact ⟨⟨fun hh => hne hh.symm, by rw [hAkey, hBkey]⟩, hAproc⟩
    rw [start_stream, hB]
    simp only [if_neg hBnl, if_pos hany]
    simp only [hBkey]
  · have hBdb : get_stream (stop_stream s idA nowStop).1.db idB = some stB :=
      (stop_db_ne s idA StreamStatus.completed nowStop idB hne).trans hB
    have hprocs : (stop_stream s idA nowStop).1.procs = removeProc s.procs idA :=
      stop_procs_eq s idA StreamStatus.completed nowStop
    have hnoproc : ∀ x : String, lookupProc (stop_stream s idA nowStop).1.procs x = none := by
      intro x
      rw [hprocs]
      by_cases hx : x = idA
      · rw [hx]
        exact lookupProc_remove_self s.procs idA
      · rw [lookupProc_remove_ne s.procs idA x hx]
        apply lookupProc_eq_none_of_not_key
        intro hmem
        obtain ⟨q, hq, hqid⟩ := List.mem_map.mp hmem
        exact hx (by rw [← hqid]; exact honly q hq)
    have hany : ((stop_stream s idA nowStop).1.db.any (fun other =>
        decide (other.id ≠ idB) && decide (other.youtube_key = stB.youtube_key)
          && (lookupProc (stop_stream s idA nowStop).1.procs other.id).isSome)) = false := by
      rw [Bool.eq_false_iff]
      intro hc
      obtain ⟨x, _, hx⟩ := List.any_eq_true.mp hc
      rw [hnoproc x.id] at hx
      simp at hx
    have hrun : lookupProc
        (insertProc (stop_stream s idA nowStop).1.procs idB { running := true, elapsed := 0 }) idB
        = some { running := true, elapsed := 0 } :=
      lookupProc_insert_self _ idB _
    have hanyneg : ¬ (((stop_stream s idA nowStop).1.db.any (fun other =>
        decide (other.id ≠ idB) && decide (other.youtube_key = stB.youtube_key)
          && (lookupProc (stop_stream s idA nowStop).1.procs other.id).isSome)) = true) := by
      rw [hany]
      simp
    have hspawnneg : ¬ (envB.spawn_ok = false) := by
      rw [hspawn]
      simp
    rw [start_stream, hBdb]
    simp only [if_neg hBnl, if_neg hanyneg, if_neg hspawnneg, halive, hrun]
    simp

/-- Claim C3 witness: A (id "a") is live with key "k" and holds the only
handle; B (id "b") shares the key and is idle. -/
theorem c3_duplicate_key_witness :
    ((add_stream ⟨true, true, none⟩ "c" 3
        ⟨[stream_fixture "a" "k" StreamStatus.live, stream_fixture "b" "k" StreamStatus.idle],
         [("a", ⟨true, 5⟩)], []⟩
        ⟨"N", "k", "v", manual_schedule, 3, false⟩).2 =
      Except.error (ManagerError.duplicateKey "k")) ∧
    ((start_stream ⟨true, true, none⟩ 4
        ⟨[stream_fixture "a" "k" StreamStatus.live, stream_fixture "b" "k" StreamStatus.idle],
         [("a", ⟨true, 5⟩)], []⟩ "b").2 =
      Except.error (ManagerError.duplicateKey "k")) ∧
    (start_stream ⟨true, true, none⟩ 6
      (stop_stream
        ⟨[stream_fixture "a" "k" StreamStatus.live, stream_fixture "b" "k" StreamStatus.idle],
         [("a", ⟨true, 5⟩)], []⟩ "a" 5).1 "b").2 = Except.ok () :=
  c3_duplicate_key
    ⟨[stream_fixture "a" "k" StreamStatus.live, stream_fixture "b" "k" StreamStatus.idle],
     [("a", ⟨true, 5⟩)], []⟩
    "a" "b" "k" (stream_fixture "a" "k" StreamStatus.live)
    (stream_fixture "b" "k" StreamStatus.idle)
    ⟨"N", "k", "v", manual_schedule, 3, false⟩ ⟨true, true, none⟩ ⟨true, true, none⟩
    "c" 3 4 5 6
    (by decide) (by decide) (by decide) (by decide) (by decide) (by decide) (by decide)
    (by decide) (by decide) (by decide) (by decide) (by decide)

/-- Claim C10: `stop_stream` never checks that the job exists and never
returns `NotFound`: on an id with no persisted record it returns success
and the store is unchanged; on an existing job with no running process it
returns success after persisting `Stopping` and then `Completed` with
`stopped_at = now`, leaving `last_elapsed_seconds` unchanged. -/
theorem c10_stop_without_record_or_process (s : MState) (id : String) (now : Nat) :
    (get_stream s.db id = none →
      (stop_stream s id now).2 = Except.ok () ∧ (stop_stream s id now).1.db = s.db) ∧
    (∀ st : Stream, get_stream s.db id = some st → lookupProc s.procs id = none →
      (stop_stream s id now).2 = Except.ok () ∧
      stop_events s id StreamStatus.completed =
        [StopEvent.cancel_scheduler, StopEvent.persist_status StreamStatus.stopping,
         StopEvent.remove_and_stop_process, StopEvent.persist_status StreamStatus.completed,
         StopEvent.persist_stopped_at] ∧
      get_stream (stop_stream s id now).1.db id =
        some { st with status := StreamStatus.completed, stopped_at := some now }) := by
  constructor
  · intro habs
    refine ⟨rfl, ?_⟩
    have h1 : update_stream_status s.db id StreamStatus.stopping = s.db :=
      update_status_absent _ _ _ habs
    have h2 : update_stream_status s.db id StreamStatus.completed = s.db :=
      update_status_absent _ _ _ habs
    have h3 : update_stream_stopped_at s.db id now = s.db :=
      update_stopped_absent _ _ _ habs
    cases hlp : lookupProc s.procs id with
    | none =>
      show ((stop_events s id StreamStatus.completed).foldl (apply_stop_event id now) s).db = s.db
      simp [stop_events, hlp, apply_stop_event, h1, h2, h3]
    | some p =>
      have h4 : update_stream_last_elapsed s.db id p.elapsed = s.db :=
        update_elapsed_absent _ _ _ habs
      show ((stop_events s id StreamStatus.completed).foldl (apply_stop_event id now) s).db = s.db
      simp [stop_events, hlp, apply_stop_event, h1, h2, h3, h4]
  · intro st hst hlp
    have hev : stop_events s id StreamStatus.completed =
        [StopEvent.cancel_scheduler, StopEvent.persist_status StreamStatus.stopping,
         StopEvent.remove_and_stop_process, StopEvent.persist_status StreamStatus.completed,
         StopEvent.persist_stopped_at] := by
      simp [stop_events, hlp]
    refine ⟨rfl, hev, ?_⟩
    have hstate : (stop_stream s id now).1 =
        { db := update_stream_stopped_at
                  (update_stream_status (update_stream_status s.db id StreamStatus.stopping)
                    id StreamStatus.completed) id now,
          procs := removeProc s.procs id,
          scheds := removeSched s.scheds id } := by
      show ((stop_events s id StreamStatus.completed).foldl (apply_stop_event id now) s) = _
      rw [hev]
      simp [apply_stop_event]
    rw [hstate]
    show get_stream (update_stream_stopped_at _ _ _) _ = _
    rw [get_stream_update_stopped_self, get_stream_update_status_self,
        get_stream_update_status_self, hst]
    rfl

/-- Claim C6: when the spawned process is no longer running at the
re-probe after the grace period, `start_stream` removes the handle from
the table, persists `Error`, and returns an FFmpeg error; no entry for
the id remains in the process table. -/
theorem c6_start_grace_failure (env : StartEnv) (now : Nat) (s : MState) (id : String)
    (st : Stream)
    (hst : get_stream s.db id = some st)
    (hnl : ¬ st.status = StreamStatus.live)
    (hdup : s.db.any (fun other =>
        decide (other.id ≠ id) && decide (other.youtube_key = st.youtube_key)
          && (lookupProc s.procs other.id).isSome) = false)
    (hspawn : env.spawn_ok = true)
    (halive : env.alive_after_grace = false) :
    (start_stream env now s id).2 = Except.error (ManagerError.ffmpeg
      "FFmpeg process exited immediately - check video file or stream key") ∧
    lookupProc (start_stream env now s id).1.procs id = none ∧
    get_stream (start_stream env now s id).1.db id =
      some { st with status := StreamStatus.error } ∧
    grace_period_seconds = 2 := by
  have hrun : lookupProc (insertProc s.procs id { running := false, elapsed := 0 }) id
      = some { running := false, elapsed := 0 } :=
    lookupProc_insert_self s.procs id _
  have hstart : start_stream env now s id =
      ({ db := update_stream_status s.db id StreamStatus.error,
         procs := removeProc s.procs id,
         scheds := s.scheds },
       Except.error (ManagerError.ffmpeg
         "FFmpeg process exited immediately - check video file or stream key")) := by
    rw [start_stream, hst]
    simp only [if_neg hnl, hdup, Bool.false_eq_true, if_false, hspawn, halive, hrun]
    simp [removeProc_insertProc]
  rw [hstart]
  refine ⟨rfl, lookupProc_remove_self s.procs id, ?_, rfl⟩
  show get_stream (update_stream_status s.db id StreamStatus.error) id = _
  rw [get_stream_update_status_self, hst]
  rfl

/-- Claim C6 witness: a job whose process dies inside the grace window. -/
theorem c6_start_grace_failure_witness :
    (start_stream ⟨true, false, none⟩ 9 ⟨[stream_fixture "a" "k" StreamStatus.idle], [], []⟩ "a").2 =
      Except.error (ManagerError.ffmpeg
        "FFmpeg process exited immediately - check video file or stream key") ∧
    lookupProc
        (start_stream ⟨true, false, none⟩ 9 ⟨[stream_fixture "a" "k" StreamStatus.idle], [], []⟩ "a").1.procs "a" =
      none ∧
    get_stream
        (start_stream ⟨true, false, none⟩ 9 ⟨[stream_fixture "a" "k" StreamStatus.idle], [], []⟩ "a").1.db "a" =
      some { stream_fixture "a" "k" StreamStatus.idle with status := StreamStatus.error } ∧
    grace_period_seconds = 2 :=
  c6_start_grace_failure ⟨true, false, none⟩ 9 ⟨[stream_fixture "a" "k" StreamStatus.idle], [], []⟩
    "a" (stream_fixture "a" "k" StreamStatus.idle)
    (by decide) (by decide) (by decide) (by decide) (by decide)

/-- Claim C7 witness: a 2-second timer cancelled at 500 ms never fires,
an uncancelled one fires at 2000 ms. -/
theorem c7_scheduler_timer_witness :
    500 < 1000 * 2 ∧
    (Scheduler.run (1000 * 2) (some 500) = none ∧
     (∃ t, Scheduler.run (1000 * 2) none = some t ∧ 1000 * 2 ≤ t) ∧
     Scheduler.poll_slice_ms = 100) :=
  ⟨by decide, c7_scheduler_timer 2 500 (by decide)⟩

/-! ### Claim C2: the Live-iff-handle invariant -/

theorem lookupProc_none_not_key (t : ProcTable) (id : String)
    (h : lookupProc t id = none) : id ∉ t.map Prod.fst := by
  intro hmem
  obtain ⟨q, hq, hqid⟩ := List.mem_map.mp hmem
  have hf : t.find? (fun q => decide (q.1 = id)) = none := by
    simpa [lookupProc] using h
  have := List.find?_eq_none.mp hf q hq
  simp [hqid] at this

theorem lookupProc_unique (t : ProcTable) (id : String) (p : Proc) (q : String × Proc)
    (hwf : (t.map Prod.fst).Nodup) (hl : lookupProc t id = some p)
    (hq : q ∈ t) (hqid : q.1 = id) : q.2 = p := by
  induction t with
  | nil => cases hq
  | cons r l ih =>
    rw [List.map_cons, List.nodup_cons] at hwf
    rw [lookupProc_cons] at hl
    rcases List.mem_cons.mp hq with heq | hql
    · rw [heq] at hqid ⊢
      rw [if_pos hqid] at hl
      exact Option.some.inj hl
    · have hr : r.1 ≠ id := by
        intro he
        apply hwf.1
        rw [he, ← hqid]
        exact List.mem_map_of_mem Prod.fst hql
      rw [if_neg hr] at hl
      exact ih hwf.2 hl hql

/-- The inductive invariant: process-table keys are unique, and the job's
persisted status is `Live` iff a handle for it is present. -/
def InvC2 (id : String) (s : MState) : Prop :=
  (s.procs.map Prod.fst).Nodup ∧ live_iff_handle id s

/-- The three possible outcomes of `start_stream` on the state: an early
return leaving the state unchanged, the grace-window failure (handle
removed, `Error` persisted), or confirmed liveness (handle present with a
positive probe, `Live` and `started_at` persisted). -/
theorem start_stream_state (env : StartEnv) (now : Nat) (s : MState) (id : String) :
    (start_stream env now s id).1 = s ∨
    (start_stream env now s id).1 =
      { db := update_stream_status s.db id StreamStatus.error,
        procs := removeProc s.procs id, scheds := s.scheds } ∨
    (env.alive_after_grace = true ∧
     (start_stream env now s id).1.db =
       update_stream_started_at (update_stream_status s.db id StreamStatus.live) id now ∧
     (start_stream env now s id).1.procs =
       insertProc s.procs id { running := true, elapsed := 0 }) := by
  cases hg : get_stream s.db id with
  | none =>
    left
    rw [start_stream, hg]
  | some stream =>
    by_cases hlive : stream.status = StreamStatus.live
    · left
      rw [start_stream, hg]
      simp only [if_pos hlive]
    · by_cases hany : (s.db.any (fun other =>
          decide (other.id ≠ id) && decide (other.youtube_key = stream.youtube_key)
            && (lookupProc s.procs other.id).isSome)) = true
      · left
        rw [start_stream, hg]
        simp only [if_neg hlive, if_pos hany]
      · by_cases hsp : env.spawn_ok = false
        · left
          rw [start_stream, hg]
          simp only [if_neg hlive, if_neg hany, if_pos hsp]
        · have hrun : lookupProc
              (insertProc s.procs id { running := env.alive_after_grace, elapsed := 0 }) id =
              some { running := env.alive_after_grace, elapsed := 0 } :=
            lookupProc_insert_self _ _ _
          cases halive : env.alive_after_grace with
          | false =>
            right; left
            rw [halive] at hrun
            rw [start_stream, hg]
            simp only [if_neg hlive, if_neg hany, if_neg hsp, halive, hrun]
            simp [removeProc_insertProc]
          | true =>
            right; right
            rw [halive] at hrun
            refine ⟨rfl, ?_, ?_⟩ <;>
            · rw [start_stream, hg]
              simp only [if_neg hlive, if_neg hany, if_neg hsp, halive, hrun]
              unfold setup_scheduler
              cases stop_after_seconds stream.schedule env.abs_seconds <;> simp

theorem invc2_start (id : String) (env : StartEnv) (now : Nat) (s : MState)
    (h : InvC2 id s) : InvC2 id (start_stream env now s id).1 := by
  rcases start_stream_state env now s id with hcase | hcase | ⟨_, hdb, hprocs⟩
  · rw [hcase]
    exact h
  · rw [hcase]
    refine ⟨keys_nodup_removeProc _ _ h.1, ?_⟩
    intro st hst
    have hst' : get_stream (update_stream_status s.db id StreamStatus.error) id = some st := hst
    rw [get_stream_update_status_self] at hst'
    cases hg : get_stream s.db id <;> rw [hg] at hst'
    · simp at hst'
    · simp only [Option.map_some', Option.some.injEq] at hst'
      rw [← hst']
      simp [lookupProc_remove_self]
  · constructor
    · rw [hprocs]
      exact keys_nodup_insertProc _ _ _ h.1
    · intro st hst
      rw [hdb, get_stream_update_started_self, get_stream_update_status_self] at hst
      cases hg : get_stream s.db id <;> rw [hg] at hst
      · simp at hst
      · simp only [Option.map_some', Option.some.injEq] at hst
        rw [← hst, hprocs]
        simp [lookupProc_insert_self]

theorem invc2_stop (id : String) (now : Nat) (s : MState)
    (h : InvC2 id s) : InvC2 id (stop_stream s id now).1 := by
  constructor
  · rw [show (stop_stream s id now).1.procs = removeProc s.procs id from
      stop_procs_eq s id StreamStatus.completed now]
    exact keys_nodup_removeProc _ _ h.1
  · intro st hst
    have hstatus := stop_db_status s id StreamStatus.completed now st hst
    rw [hstatus, show (stop_stream s id now).1.procs = removeProc s.procs id from
      stop_procs_eq s id StreamStatus.completed now]
    simp [lookupProc_remove_self]

theorem invc2_die (id : String) (s : MState)
    (h : InvC2 id s) : InvC2 id (kill_external s id) := by
  constructor
  · rw [show (kill_external s id).procs.map Prod.fst = s.procs.map Prod.fst from
      keys_kill_external s id]
    exact h.1
  · intro st hst
    rw [lookupProc_kill_external s id id]
    exact h.2 st hst

theorem invc2_monitor (id : String) (now : Nat) (s : MState)
    (h : InvC2 id s) : InvC2 id (monitor_iteration s now) := by
  have hwf := h.1
  constructor
  · exact keys_nodup_filter _ _ hwf
  · intro st hst
    have hlookup : lookupProc (monitor_iteration s now).procs id =
        (lookupProc s.procs id).bind (fun p => if p.running = true then some p else none) :=
      lookupProc_filter_running s.procs id hwf
    cases hlp : lookupProc s.procs id with
    | none =>
      have hnk : id ∉ s.procs.map Prod.fst := lookupProc_none_not_key _ _ hlp
      have habs : ∀ q ∈ s.procs.filter (fun q => !q.2.running), q.1 ≠ id := by
        intro q hq he
        exact hnk (he ▸ List.mem_map_of_mem Prod.fst (List.mem_of_mem_filter hq))
      have hdb : get_stream (monitor_iteration s now).db id = get_stream s.db id :=
        get_stream_fold_dead_absent _ now s.db id habs
      rw [hdb] at hst
      have h2 := h.2 st hst
      rw [hlp] at h2
      rw [hlookup, hlp]
      simpa using h2
    | some p =>
      by_cases hr : p.running = true
      · have habs : ∀ q ∈ s.procs.filter (fun q => !q.2.running), q.1 ≠ id := by
          intro q hq he
          have hqmem := List.mem_of_mem_filter hq
          have hq2 : q.2 = p := lookupProc_unique s.procs id p q hwf hlp hqmem he
          have hfl := List.of_mem_filter hq
          rw [hq2] at hfl
          simp [hr] at hfl
        have hdb : get_stream (monitor_iteration s now).db id = get_stream s.db id :=
          get_stream_fold_dead_absent _ now s.db id habs
        rw [hdb] at hst
        have h2 := h.2 st hst
        rw [hlp] at h2
        rw [hlookup, hlp]
        simpa [hr] using h2
      · have hrf : p.running = false := by
          cases hx : p.running
          · rfl
          · exact absurd hx hr
        have hmemdead : (id, p) ∈ s.procs.filter (fun q => !q.2.running) :=
          List.mem_filter.mpr ⟨lookupProc_some_mem _ _ _ hlp, by simp [hrf]⟩
        have hnd := keys_nodup_filter s.procs (fun q => !q.2.running) hwf
        have hdb : get_stream (monitor_iteration s now).db id =
            (get_stream s.db id).map (fun s0 =>
              { s0 with status := StreamStatus.error, stopped_at := some now,
                        last_elapsed_seconds := some p.elapsed }) :=
          get_stream_fold_dead_mem _ now s.db id p hnd hmemdead
        rw [hdb] at hst
        cases hg : get_stream s.db id <;> rw [hg] at hst
        · simp at hst
        · simp only [Option.map_some', Option.some.injEq] at hst
          rw [hlookup, hlp, ← hst]
          simp [hrf]

theorem invc2_op (id : String) (s : MState) (op : JobOp)
    (h : InvC2 id s) : InvC2 id (apply_job_op id s op) := by
  cases op with
  | startOp env now => exact invc2_start id env now s h
  | stopOp now => exact invc2_stop id now s h
  | dieOp => exact invc2_die id s h
  | monitorOp now => exact invc2_monitor id now s h

/-- Claim C2: over every sequence of completed operations on a single job
(starts, stops, external process death, reconciliation iterations),
starting from a freshly created job (persisted `Idle`, empty tables), the
persisted status is `Live` exactly when a process handle for the job is
present in the process table. -/
theorem c2_live_iff_handle (id : String) (stream0 : Stream) (ops : List JobOp)
    (hid : stream0.id = id) (hidle : stream0.status = StreamStatus.idle) :
    live_iff_handle id (ops.foldl (apply_job_op id) (init_state stream0)) := by
  have base : InvC2 id (init_state stream0) := by
    constructor
    · simp [init_state]
    · intro st hst
      have : get_stream [stream0] id = some st := hst
      rw [get_stream_cons] at this
      rw [if_pos hid] at this
      have hsteq : st = stream0 := (Option.some.inj this).symm
      rw [hsteq, hidle]
      constructor
      · intro hcontra
        exact absurd hcontra (by simp)
      · intro hcontra
        simp [lookupProc, init_state] at hcontra
  have step : ∀ s : MState, InvC2 id s → InvC2 id (ops.foldl (apply_job_op id) s) := by
    induction ops with
    | nil => exact fun s h => h
    | cons op rest ih => exact fun s h => ih (apply_job_op id s op) (invc2_op id s op h)
  exact (step (init_state stream0) base).2

/-- Claim C2 witness: start, external death, a reconciliation iteration,
then a fresh start and a stop. -/
theorem c2_live_iff_handle_witness :
    (stream_fixture "a" "k" StreamStatus.idle).id = "a" ∧
    (stream_fixture "a" "k" StreamStatus.idle).status = StreamStatus.idle ∧
    live_iff_handle "a"
      (([JobOp.startOp ⟨true, true, none⟩ 10, JobOp.dieOp, JobOp.monitorOp 20,
         JobOp.startOp ⟨true, true, none⟩ 30, JobOp.stopOp 40]).foldl
        (apply_job_op "a") (init_state (stream_fixture "a" "k" StreamStatus.idle))) :=
  ⟨by decide, by decide,
   c2_live_iff_handle "a" (stream_fixture "a" "k" StreamStatus.idle)
     [JobOp.startOp ⟨true, true, none⟩ 10, JobOp.dieOp, JobOp.monitorOp 20,
      JobOp.startOp ⟨true, true, none⟩ 30, JobOp.stopOp 40]
     (by decide) (by decide)⟩


end YLM
